import Mathlib

/-!
Verification development for the `hcrystalball` forecaster adapter
(`sktime/forecasting/hcrystalball.py`).

The adapter translates between the sktime forecaster interface and the
hcrystalball model interface.  We shallowly embed the pandas objects the
adapter manipulates: a time index is a `PIndex` (period index, datetime
index, or default range index), a series is an index plus a list of
values, a frame is an index plus rows of nullable cells.  Timestamps are
integers (days); a period of frequency `f` (a positive number of days)
with ordinal `p` covers days `[p*f, (p+1)*f)`, so its start timestamp is
`p*f`, matching the pandas ordinal/`to_timestamp` arithmetic at a fixed
multiple-of-a-day frequency.
-/

set_option autoImplicit false

namespace HCB

/-- A single index key.  Period keys, timestamp keys and positional keys
are distinct pandas objects and never compare equal across kinds (object
equality used by index joins). -/
inductive TimeKey where
  | period (freq : Int) (ord : Int)
  | stamp (t : Int)
  | pos (i : Nat)
deriving DecidableEq, Repr

/-- A pandas index: `PeriodIndex` (with its frequency), `DatetimeIndex`
(with its optional inferred frequency metadata), or the default
`RangeIndex` of a given length. -/
inductive PIndex where
  | periodIdx (freq : Int) (ords : List Int)
  | datetimeIdx (freq : Option Int) (ts : List Int)
  | rangeIdx (n : Nat)
deriving DecidableEq, Repr

/-- `isinstance(index, (pd.PeriodIndex, pd.DatetimeIndex))`. -/
def PIndex.isTimeAware : PIndex → Bool
  | .periodIdx _ _ => true
  | .datetimeIdx _ _ => true
  | .rangeIdx _ => false

/-- Number of entries of the index. -/
def PIndex.length : PIndex → Nat
  | .periodIdx _ os => os.length
  | .datetimeIdx _ ts => ts.length
  | .rangeIdx n => n

/-- The element keys of the index, as joinable objects. -/
def PIndex.keys : PIndex → List TimeKey
  | .periodIdx f os => os.map (TimeKey.period f)
  | .datetimeIdx _ ts => ts.map TimeKey.stamp
  | .rangeIdx n => (List.range n).map TimeKey.pos

/-- Start timestamp of the period with ordinal `ord` at frequency `freq`. -/
def periodStart (freq ord : Int) : Int := ord * freq

/-- `index.to_timestamp() if isinstance(index, pd.PeriodIndex) else index`
(the function `_ensure_datetime_index` of the source). -/
def _ensure_datetime_index : PIndex → PIndex
  | .periodIdx f os => .datetimeIdx (some f) (os.map (periodStart f))
  | i => i

/-- The index flavor the caller used (`type(self._y.index)` is only
meaningful for the two time-aware index classes). -/
inductive IndexFlavor where
  | period
  | datetime
deriving DecidableEq, Repr

/-- Flavor of an index, when time-aware. -/
def PIndex.flavor? : PIndex → Option IndexFlavor
  | .periodIdx _ _ => some .period
  | .datetimeIdx _ _ => some .datetime
  | .rangeIdx _ => none

/-- `index.values` of a prediction index, seen as raw timestamps
(prediction frames are timestamp-indexed; the other cases are given
matching total values for definedness). -/
def PIndex.tsValues : PIndex → List Int
  | .periodIdx f os => os.map (periodStart f)
  | .datetimeIdx _ ts => ts
  | .rangeIdx n => (List.range n).map (Int.ofNat)

/-- A pandas `Series`: values (nullable cells) over an index. -/
structure PSeries where
  index : PIndex
  values : List (Option Int)
deriving DecidableEq, Repr

/-- A pandas `DataFrame`: an index, a column count, and rows of nullable
cells (each row has `ncols` cells in a well-formed frame). -/
structure DFrame where
  index : PIndex
  ncols : Nat
  rows : List (List (Option Int))
deriving DecidableEq, Repr

/-- `pd.DataFrame()`: empty frame with an empty default `RangeIndex`. -/
def emptyDF : DFrame := ⟨.rangeIdx 0, 0, []⟩

/-- `pd.DataFrame(index=idx)`: no columns, one empty row per index entry. -/
def zeroColsFrame (idx : PIndex) : DFrame := ⟨idx, 0, List.replicate idx.length []⟩

/-- `pd.DataFrame(data=real.values, index=newIdx)`.  With a zero-column
data array the constructor accepts any index (the empty block list special
case); otherwise the row count must match the new index length, else the
constructor raises `ValueError`. -/
def dataframe_with_index (real : DFrame) (newIdx : PIndex) : Except Unit DFrame :=
  if real.ncols = 0 then .ok (zeroColsFrame newIdx)
  else if real.rows.length = newIdx.length then .ok ⟨newIdx, real.ncols, real.rows⟩
  else .error ()

/-- Rows of `real` joined to the left key `k`: all rows of `real` whose
index key equals `k`, or a single all-null row when there is none
(pandas left-join semantics; keys of distinct kinds never match). -/
def joinRows (real : DFrame) (k : TimeKey) : List (List (Option Int)) :=
  match ((real.index.keys.zip real.rows).filter (fun q => q.1 == k)).map Prod.snd with
  | [] => [List.replicate real.ncols none]
  | r :: rs => r :: rs

/-- Repeat each index entry a given number of times (the index of a left
join repeats a left key once per matching right row). -/
def PIndex.expandBy : PIndex → (TimeKey → Nat) → PIndex
  | .periodIdx f os, c => .periodIdx f (os.flatMap (fun o => List.replicate (c (.period f o)) o))
  | .datetimeIdx fo ts, c => .datetimeIdx fo (ts.flatMap (fun t => List.replicate (c (.stamp t)) t))
  | .rangeIdx n, c => .rangeIdx (((List.range n).map (fun i => c (.pos i))).sum)

/-- `dummy.merge(real, left_index=True, right_index=True, how="left")`:
every row of `dummy` is kept (repeated per matching `real` row), columns
of `real` are appended, unmatched keys yield null cells. -/
def mergeLeft (dummy real : DFrame) : DFrame :=
  ⟨dummy.index.expandBy (fun k => (joinRows real k).length),
   dummy.ncols + real.ncols,
   (dummy.index.keys.zip dummy.rows).flatMap
     (fun p => (joinRows real p.1).map (fun r => p.2 ++ r))⟩

/-- The function `_safe_merge` of the source: a left join onto the dummy
frame when the real frame has a time-aware index, otherwise a positional
re-indexing of the real values (which raises `ValueError` on a length
mismatch, surfaced here as `.error`). -/
def _safe_merge (real_df dummy_df : DFrame) : Except Unit DFrame :=
  if real_df.index.isTimeAware then .ok (mergeLeft dummy_df real_df)
  else dataframe_with_index real_df dummy_df.index

/-- Adapter error taxonomy (section 7 of the specification).  The Python
code raises `NotImplementedError` with distinct messages for the first
two and the fourth, `NotFittedError` for the third; the last two model
base-class/attribute failures outside the taxonomy. -/
inductive AdapterError where
  | ambiguousAlignment
  | unsupportedHorizon
  | notFitted
  | unimplementedFeature
  | missingHorizon
  | attributeError
deriving DecidableEq, Repr

/-- The function `_adapt_fit_data` of the source. -/
def _adapt_fit_data (y_train : PSeries) (X_opt : Option DFrame) :
    Except AdapterError (PSeries × DFrame) :=
  let X_train := X_opt.getD emptyDF
  if y_train.index.isTimeAware then
    let dt_index := _ensure_datetime_index y_train.index
    match _safe_merge X_train (zeroColsFrame dt_index) with
    | .ok X => .ok (⟨dt_index, y_train.values⟩, X)
    | .error _ => .error .ambiguousAlignment
  else if X_train.index.isTimeAware then
    if X_train.index.length ≠ y_train.index.length then .error .ambiguousAlignment
    else
      let dt_index := _ensure_datetime_index X_train.index
      .ok (⟨dt_index, y_train.values⟩, ⟨dt_index, X_train.ncols, X_train.rows⟩)
  else .error .ambiguousAlignment

/-- The function `_adapt_predict_data` of the source. -/
def _adapt_predict_data (X_pred : Option DFrame) (idx : PIndex) :
    Except AdapterError DFrame :=
  match X_pred with
  | none => .ok (zeroColsFrame idx)
  | some Xp =>
    match _safe_merge Xp (zeroColsFrame idx) with
    | .ok X => .ok X
    | .error _ => .error .ambiguousAlignment

/-- The cutoff: last observed time-position, carrying frequency metadata.
Modelled from the spec: the base class sets `cutoff = y.index[-1]` (a
`pd.Period` for a period index, a `pd.Timestamp` carrying the index
frequency for a datetime index). -/
inductive Cutoff where
  | period (freq ord : Int)
  | stamp (freq t : Int)
deriving DecidableEq, Repr

/-- Frequency metadata of the cutoff (`cutoff.freq`). -/
def Cutoff.freq : Cutoff → Int
  | .period f _ => f
  | .stamp f _ => f

/-- Modelled from the spec: the cutoff obtained from the stored target
index, when defined (an integer positional index yields none: accessing
`.freq` on it fails). -/
def PIndex.cutoff? : PIndex → Option Cutoff
  | .periodIdx f os => os.getLast?.map (Cutoff.period f)
  | .datetimeIdx fo ts =>
    match fo, ts.getLast? with
    | some f, some t => some (.stamp f t)
    | _, _ => none
  | .rangeIdx _ => none

/-- Modelled from the spec: `fh.to_absolute(cutoff)` — the forecasting
horizon, given as relative integer offsets from the cutoff, resolved to
absolute keys (period arithmetic adds offsets to the ordinal, timestamp
arithmetic adds offset multiples of the frequency). -/
def fhToAbsolute (steps : List Int) : Cutoff → List TimeKey
  | .period f c => steps.map (fun s => TimeKey.period f (c + s))
  | .stamp f t => steps.map (fun s => TimeKey.stamp (t + s * f))

/-- `pd.PeriodIndex(keys, freq=f)`: the ordinal of the period at
frequency `f` containing the key (a period keeps its ordinal, a
timestamp is floored onto the frequency grid, an integer is taken as an
ordinal). -/
def keyToPeriodOrd (f : Int) : TimeKey → Int
  | .period _ p => p
  | .stamp t => Int.fdiv t f
  | .pos i => Int.ofNat i

/-- `pd.date_range(a, b)` with the default daily frequency: all integer
days from `a` to `b` inclusive. -/
def dateRange (a b : Int) : List Int :=
  (List.range (b - a + 1).toNat).map (fun (i : Nat) => a + (i : Int))

/-- Minimum of a list of timestamps (`idx.min()`); 0 on the empty list. -/
def listMin : List Int → Int
  | [] => 0
  | [x] => x
  | x :: y :: t => min x (listMin (y :: t))

/-- Maximum of a list of timestamps (`idx.max()`); 0 on the empty list. -/
def listMax : List Int → Int
  | [] => 0
  | [x] => x
  | x :: y :: t => max x (listMax (y :: t))

/-- `pd.PeriodIndex(fh.to_absolute(cutoff), freq=cutoff.freq).to_timestamp()`:
the resolved timestamp keys of the horizon. -/
def resolvedTs (steps : List Int) (c : Cutoff) : List Int :=
  (fhToAbsolute steps c).map (fun k => periodStart c.freq (keyToPeriodOrd c.freq k))

/-- The function `_extract_dt_index` of the source: resolve the horizon
to timestamps and raise unless the daily calendar range spanned by the
resolved keys has exactly as many entries as there are distinct keys. -/
def _extract_dt_index (steps : List Int) (c : Cutoff) :
    Except AdapterError (List Int) :=
  let idx := resolvedTs steps c
  if (dateRange (listMin idx) (listMax idx)).length ≠ idx.dedup.length
  then .error .unsupportedHorizon
  else .ok idx

/-- Rebuild an index of the given flavor from raw timestamp values with
the given frequency (`index_type(preds.index.values, freq=freq)`). -/
def reexpressIndex (fl : IndexFlavor) (freq : Int) (ts : List Int) : PIndex :=
  match fl with
  | .period => .periodIdx freq (ts.map (fun t => Int.fdiv t freq))
  | .datetime => .datetimeIdx (some freq) ts

/-- The function `_convert_predictions` of the source: positionally take
column 0 (`preds.iloc[:, 0]`) and convert the index back to the recorded
index flavor. -/
def _convert_predictions (preds : DFrame) (freq : Int) (index_type : IndexFlavor) :
    PSeries :=
  ⟨reexpressIndex index_type freq preds.index.tsValues,
   preds.rows.map (fun r => r.getD 0 none)⟩

/-- The wrapped hcrystalball model, abstracted by its prediction
behavior on timestamp-indexed feature frames. -/
structure WrappedModel where
  predictFn : DFrame → DFrame

/-- Calls made to the wrapped model, recorded in order. -/
inductive ExtCall where
  | modelFit (X : DFrame) (y : PSeries)
  | modelPredict (X : DFrame)
deriving DecidableEq, Repr

/-- The adapter instance: wrapped model, fitted flag, and the stored
originals (`self._y`, `self._X`, `self._fh`) recorded by the base-class
plumbing at fit time.  Modelled from the spec for the base-class fields. -/
structure HCrystalBallForecaster where
  model : WrappedModel
  _is_fitted : Bool
  _y : Option PSeries
  _X : Option DFrame
  _fh : Option (List Int)

/-- Modelled from the spec: the optional-horizon bookkeeping of the
base-class mixin — a horizon passed to the call replaces the stored one,
otherwise the stored one is kept. -/
def setFhOpt (fh old : Option (List Int)) : Option (List Int) :=
  match fh with
  | some s => some s
  | none => old

/-- Modelled from the spec: the framework default confidence level. -/
def DEFAULT_ALPHA : ℚ := 1 / 20

/-- The static method `_check_model_consistent_with_pred_int` of the
source: raises unconditionally, for every confidence level. -/
def _check_model_consistent_with_pred_int (alpha : ℚ) : AdapterError :=
  .unimplementedFeature

/-- The method `HCrystalBallForecaster.fit` of the source.  Returns the
list of wrapped-model calls made, and either the fitted instance or the
adapter error.  The base-class `_set_y_X`/`_set_fh` bookkeeping is
modelled from the spec. -/
def HCrystalBallForecaster.fit (self : HCrystalBallForecaster) (y_train : PSeries)
    (X_train : Option DFrame) (fh : Option (List Int)) :
    List ExtCall × Except AdapterError HCrystalBallForecaster :=
  let self' := { self with
    _y := some y_train, _X := X_train, _fh := setFhOpt fh self._fh }
  match _adapt_fit_data y_train X_train with
  | .error e => ([], .error e)
  | .ok (y', X') => ([.modelFit X' y'], .ok { self' with _is_fitted := true })

/-- The method `HCrystalBallForecaster.predict` of the source, in source
order: the interval-request check, then `check_is_fitted` (modelled from
the spec: raises the not-fitted error on an unfitted instance), then
horizon resolution, predict-data adaptation, the wrapped-model call, and
prediction-result adaptation. -/
def HCrystalBallForecaster.predict (self : HCrystalBallForecaster)
    (fh : Option (List Int)) (X : Option DFrame)
    (return_pred_int : Bool) (alpha : ℚ) :
    List ExtCall × Except AdapterError PSeries :=
  if return_pred_int then ([], .error (_check_model_consistent_with_pred_int alpha))
  else if self._is_fitted = false then ([], .error .notFitted)
  else
    match setFhOpt fh self._fh with
    | none => ([], .error .missingHorizon)
    | some steps =>
      match self._y with
      | none => ([], .error .attributeError)
      | some y =>
        match y.index.cutoff? with
        | none => ([], .error .attributeError)
        | some c =>
          match _extract_dt_index steps c with
          | .error e => ([], .error e)
          | .ok idx =>
            match _adapt_predict_data X (.datetimeIdx (some c.freq) idx) with
            | .error e => ([], .error e)
            | .ok X_hcb =>
              match y.index.flavor? with
              | none => ([.modelPredict X_hcb], .error .attributeError)
              | some fl =>
                ([.modelPredict X_hcb],
                 .ok (_convert_predictions (self.model.predictFn X_hcb) c.freq fl))

/-! ### List helper lemmas -/

lemma listMin_le (l : List Int) (x : Int) (hx : x ∈ l) : listMin l ≤ x := by
  induction l with
  | nil => cases hx
  | cons a t ih =>
    cases t with
    | nil =>
      have : x = a := List.mem_singleton.mp hx
      subst this
      simp [listMin]
    | cons b t' =>
      rcases List.mem_cons.mp hx with h | h
      · subst h
        simp only [listMin]
        exact min_le_left _ _
      · exact le_trans (min_le_right _ _) (ih h)

lemma le_listMax (l : List Int) (x : Int) (hx : x ∈ l) : x ≤ listMax l := by
  induction l with
  | nil => cases hx
  | cons a t ih =>
    cases t with
    | nil =>
      have : x = a := List.mem_singleton.mp hx
      subst this
      simp [listMax]
    | cons b t' =>
      rcases List.mem_cons.mp hx with h | h
      · subst h
        simp only [listMax]
        exact le_max_left _ _
      · exact le_trans (ih h) (le_max_right _ _)

lemma mem_dateRange {a b t : Int} : t ∈ dateRange a b ↔ a ≤ t ∧ t ≤ b := by
  simp only [dateRange, List.mem_map, List.mem_range]
  constructor
  · rintro ⟨i, hi, rfl⟩
    omega
  · rintro ⟨h1, h2⟩
    exact ⟨(t - a).toNat, by omega, by omega⟩

lemma nodup_dateRange (a b : Int) : (dateRange a b).Nodup := by
  refine List.Nodup.map ?_ (List.nodup_range _)
  intro i j hij
  simp only at hij
  omega

/-- The continuity test of `_extract_dt_index` — the daily calendar range
between min and max having exactly as many entries as there are distinct
keys — holds exactly when every day between min and max occurs among the
keys. -/
lemma dateRangeCover_iff (l : List Int) :
    (dateRange (listMin l) (listMax l)).length = l.dedup.length ↔
      ∀ t ∈ dateRange (listMin l) (listMax l), t ∈ l := by
  have hsub : l.toFinset ⊆ (dateRange (listMin l) (listMax l)).toFinset := by
    intro t ht
    rw [List.mem_toFinset] at ht
    rw [List.mem_toFinset]
    exact mem_dateRange.mpr ⟨listMin_le l t ht, le_listMax l t ht⟩
  have hdr : (dateRange (listMin l) (listMax l)).toFinset.card
      = (dateRange (listMin l) (listMax l)).length :=
    List.toFinset_card_of_nodup (nodup_dateRange _ _)
  have hl : l.toFinset.card = l.dedup.length := List.card_toFinset l
  constructor
  · intro h t ht
    have hle : (dateRange (listMin l) (listMax l)).toFinset.card ≤ l.toFinset.card := by
      rw [hdr, hl, h]
    have heq := Finset.eq_of_subset_of_card_le hsub hle
    have : t ∈ l.toFinset := by
      rw [heq]
      exact List.mem_toFinset.mpr ht
    exact List.mem_toFinset.mp this
  · intro h
    have hsub2 : (dateRange (listMin l) (listMax l)).toFinset ⊆ l.toFinset := by
      intro t ht
      rw [List.mem_toFinset] at ht
      rw [List.mem_toFinset]
      exact h t ht
    have heq : l.toFinset = (dateRange (listMin l) (listMax l)).toFinset :=
      Finset.Subset.antisymm hsub hsub2
    rw [← hdr, ← heq, hl]

/-! ### Left-join lemmas -/

lemma joinRows_ne_nil (real : DFrame) (k : TimeKey) : joinRows real k ≠ [] := by
  unfold joinRows
  split <;> simp

lemma joinRows_not_mem (real : DFrame) (k : TimeKey) (hk : k ∉ real.index.keys) :
    joinRows real k = [List.replicate real.ncols none] := by
  unfold joinRows
  have hfil : (real.index.keys.zip real.rows).filter (fun q => q.1 == k) = [] := by
    rw [List.filter_eq_nil_iff]
    intro q hq
    have hmem := List.of_mem_zip hq
    simp only [beq_iff_eq]
    intro hqk
    exact hk (hqk ▸ hmem.1)
  rw [hfil]
  rfl

lemma zip_replicate_left {β γ : Type} (y : γ) (l : List β) :
    (List.replicate l.length y).zip l = l.map (fun r => (y, r)) := by
  induction l with
  | nil => rfl
  | cons b t ih => simp [List.replicate_succ, ih]

lemma zip_flatMap_replicate {α β γ : Type} (g : α → List β) (h : α → γ) (l : List α) :
    (l.flatMap fun x => List.replicate (g x).length (h x)).zip (l.flatMap g)
      = l.flatMap (fun x => (g x).map (fun r => (h x, r))) := by
  induction l with
  | nil => rfl
  | cons a t ih =>
    simp only [List.flatMap_cons]
    rw [List.zip_append (by simp), ih, zip_replicate_left]

lemma zip_map_replicate {α β γ : Type} (h : α → γ) (b : β) (l : List α) :
    (l.map h).zip (List.replicate l.length b) = l.map (fun x => (h x, b)) := by
  induction l with
  | nil => rfl
  | cons a t ih => simp [List.replicate_succ, ih]

/-- Keys of the index of a left join of `real` onto a zero-column frame
over a datetime index: every left key, repeated once per joined row. -/
lemma mergeLeft_zero_keys (real : DFrame) (fo : Option Int) (ts : List Int) :
    (mergeLeft (zeroColsFrame (.datetimeIdx fo ts)) real).index.keys
      = ts.flatMap
          (fun t => List.replicate (joinRows real (.stamp t)).length (TimeKey.stamp t)) := by
  simp only [mergeLeft, zeroColsFrame, PIndex.expandBy, PIndex.keys, List.map_flatMap,
    List.map_replicate]

/-- Rows of a left join of `real` onto a zero-column frame over a
datetime index: the joined rows of each left key, in order. -/
lemma mergeLeft_zero_rows (real : DFrame) (fo : Option Int) (ts : List Int) :
    (mergeLeft (zeroColsFrame (.datetimeIdx fo ts)) real).rows
      = ts.flatMap (fun t => joinRows real (.stamp t)) := by
  simp only [mergeLeft, zeroColsFrame, PIndex.keys, PIndex.length]
  rw [zip_map_replicate]
  rw [List.flatMap_map]
  simp

/-- Key/row pairs of a left join of `real` onto a zero-column frame over
a datetime index. -/
lemma mergeLeft_zero_zip (real : DFrame) (fo : Option Int) (ts : List Int) :
    ((mergeLeft (zeroColsFrame (.datetimeIdx fo ts)) real).index.keys).zip
        ((mergeLeft (zeroColsFrame (.datetimeIdx fo ts)) real).rows)
      = ts.flatMap
          (fun t => (joinRows real (.stamp t)).map (fun r => (TimeKey.stamp t, r))) := by
  rw [mergeLeft_zero_keys, mergeLeft_zero_rows, zip_flatMap_replicate]

/-- A time-aware index normalizes to a datetime index. -/
lemma ensure_datetime_of_timeAware (idx : PIndex) (h : idx.isTimeAware = true) :
    ∃ fo ts, _ensure_datetime_index idx = .datetimeIdx fo ts := by
  cases idx with
  | periodIdx f os => exact ⟨some f, os.map (periodStart f), rfl⟩
  | datetimeIdx fo ts => exact ⟨fo, ts, rfl⟩
  | rangeIdx n => simp [PIndex.isTimeAware] at h

/-- The time-aware-target branch of `_adapt_fit_data` with a time-aware
exogenous frame: a left join of the exogenous frame onto the normalized
target index. -/
lemma adapt_fit_timeAware (y : PSeries) (X : DFrame)
    (hy : y.index.isTimeAware = true) (hX : X.index.isTimeAware = true) :
    _adapt_fit_data y (some X)
      = .ok (⟨_ensure_datetime_index y.index, y.values⟩,
             mergeLeft (zeroColsFrame (_ensure_datetime_index y.index)) X) := by
  simp [_adapt_fit_data, _safe_merge, hy, hX]

/-! ### Claim theorems -/

/-- C2, counterexample: a horizon of two consecutive steps at a cutoff of
frequency 2 days is contiguous at the cutoff's frequency, yet horizon
resolution raises the unsupported-horizon error (the continuity test
compares against a daily calendar range regardless of the cutoff's
frequency), refuting the claim that a contiguous horizon of any frequency
resolves successfully. -/
theorem hcb_C2_cex :
    _extract_dt_index [1, 2] (Cutoff.period 2 0) = .error .unsupportedHorizon := rfl

/-- C2 (amended): horizon resolution succeeds if and only if the resolved
timestamp keys cover every day of the daily calendar range between their
min and max — the check is made at daily granularity regardless of the
cutoff's frequency, so a contiguous daily horizon resolves, any horizon
skipping a calendar day raises, and a multi-point contiguous horizon at a
coarser-than-daily frequency also raises. -/
theorem hcb_C2_amended (steps : List Int) (c : Cutoff) :
    _extract_dt_index steps c = .ok (resolvedTs steps c) ↔
      ∀ t ∈ dateRange (listMin (resolvedTs steps c)) (listMax (resolvedTs steps c)),
        t ∈ resolvedTs steps c := by
  rw [← dateRangeCover_iff]
  unfold _extract_dt_index
  by_cases h :
      (dateRange (listMin (resolvedTs steps c)) (listMax (resolvedTs steps c))).length
        = (resolvedTs steps c).dedup.length
  · simp [h]
  · simp [h]

/-- C3: calling predict with `return_pred_int = True` raises the
unimplemented-feature error for every instance (fitted or not), every
horizon, every exogenous argument and every confidence level. -/
theorem hcb_C3 (st : HCrystalBallForecaster) (fh : Option (List Int))
    (X : Option DFrame) (alpha : ℚ) :
    st.predict fh X true alpha = ([], .error .unimplementedFeature) := rfl

/-- C4, counterexample: with neither index time-aware and lengths equal
(both of length 2), fit-data adaptation still raises the
ambiguous-alignment error, refuting the claim that equal lengths succeed
via positional assignment. -/
theorem hcb_C4_cex :
    _adapt_fit_data ⟨.rangeIdx 2, [some 1, some 2]⟩
        (some ⟨.rangeIdx 2, 1, [[some 3], [some 4]]⟩)
      = .error .ambiguousAlignment := rfl

/-- C4 (amended): when neither the target series nor the exogenous table
carries a period or timestamp index, fit-data adaptation raises the
ambiguous-alignment error unconditionally, whether or not the lengths
match. -/
theorem hcb_C4_amended (y : PSeries) (X_opt : Option DFrame)
    (hy : y.index.isTimeAware = false)
    (hX : (X_opt.getD emptyDF).index.isTimeAware = false) :
    _adapt_fit_data y X_opt = .error .ambiguousAlignment := by
  unfold _adapt_fit_data
  simp [hy, hX]

/-- C4 witness: the amended claim at a concrete equal-length input. -/
theorem hcb_C4_witness :
    _adapt_fit_data ⟨.rangeIdx 3, [some 1, some 2, some 3]⟩
        (some ⟨.rangeIdx 3, 1, [[some 3], [some 4], [some 5]]⟩)
      = .error .ambiguousAlignment :=
  hcb_C4_amended _ _ rfl rfl

/-- C6: when the exogenous table carries a time-aware index and the
target series does not, fit-data adaptation raises the
ambiguous-alignment error on a length mismatch, and otherwise returns the
target series and exogenous table both re-indexed by the normalized
(timestamp) exogenous index with their original values unchanged. -/
theorem hcb_C6 (y : PSeries) (X : DFrame)
    (hy : y.index.isTimeAware = false) (hX : X.index.isTimeAware = true) :
    (X.index.length ≠ y.index.length →
      _adapt_fit_data y (some X) = .error .ambiguousAlignment)
    ∧ (X.index.length = y.index.length →
      _adapt_fit_data y (some X)
        = .ok (⟨_ensure_datetime_index X.index, y.values⟩,
               ⟨_ensure_datetime_index X.index, X.ncols, X.rows⟩)) := by
  constructor
  · intro hlen
    unfold _adapt_fit_data
    simp [hy, hX, hlen]
  · intro hlen
    unfold _adapt_fit_data
    simp [hy, hX, hlen]

/-- C6 witness: a positional re-index at a concrete matched-length input
(period exogenous index of frequency 5 normalized to its start
timestamps). -/
theorem hcb_C6_witness :
    _adapt_fit_data ⟨.rangeIdx 2, [some 1, some 2]⟩
        (some ⟨.periodIdx 5 [3, 4], 1, [[some 9], [some 8]]⟩)
      = .ok (⟨.datetimeIdx (some 5) [15, 20], [some 1, some 2]⟩,
             ⟨.datetimeIdx (some 5) [15, 20], 1, [[some 9], [some 8]]⟩) :=
  (hcb_C6 ⟨.rangeIdx 2, [some 1, some 2]⟩
    ⟨.periodIdx 5 [3, 4], 1, [[some 9], [some 8]]⟩ rfl rfl).2 rfl

/-- C7: prediction-result adaptation takes the values of column 0
positionally, converts the index back to the recorded original flavor
(the returned index's flavor is exactly the recorded one), and for a
period-flavored original whose timestamps are the period starts the
returned index is the period index itself — period-typed, not
timestamp-typed. -/
theorem hcb_C7 (preds : DFrame) (freq : Int) (fl : IndexFlavor) (os : List Int)
    (hf : 0 < freq) (hts : preds.index.tsValues = os.map (periodStart freq)) :
    (_convert_predictions preds freq fl).values
        = preds.rows.map (fun r => r.getD 0 none)
    ∧ (_convert_predictions preds freq fl).index.flavor? = some fl
    ∧ (_convert_predictions preds freq .period).index = .periodIdx freq os := by
  refine ⟨rfl, ?_, ?_⟩
  · cases fl <;> rfl
  · simp only [_convert_predictions, reexpressIndex, hts, List.map_map]
    have hcancel : (fun t => Int.fdiv t freq) ∘ periodStart freq = id := by
      funext o
      simp only [Function.comp, periodStart, id]
      rw [Int.fdiv_eq_ediv _ (le_of_lt hf)]
      exact Int.mul_ediv_cancel o (ne_of_gt hf)
    rw [hcancel, List.map_id]

/-- C7 witness: round trip at a concrete period-flavored input. -/
theorem hcb_C7_witness :
    (_convert_predictions ⟨.datetimeIdx (some 2) [2, 4], 1, [[some 5], [some 6]]⟩
        2 .period).index = .periodIdx 2 [1, 2] :=
  (hcb_C7 ⟨.datetimeIdx (some 2) [2, 4], 1, [[some 5], [some 6]]⟩ 2 .period [1, 2]
    (by decide) rfl).2.2

/-- C8, counterexample: on an unfitted instance, predict with
`return_pred_int = True` raises the unimplemented-feature error instead
of the not-fitted error, refuting the claim that every combination of
predict's arguments raises the not-fitted error before fit. -/
theorem hcb_C8_cex :
    (HCrystalBallForecaster.predict ⟨⟨fun Xf => Xf⟩, false, none, none, none⟩
        none none true DEFAULT_ALPHA).2 ≠ .error .notFitted := by
  intro h
  have h2 := Except.error.inj h
  cases h2

/-- C8 (amended): on every instance on which fit has not completed
successfully, predict raises the not-fitted error for every combination
of arguments with `return_pred_int = False`; with `return_pred_int =
True` the unimplemented-feature error preempts it. -/
theorem hcb_C8_amended (st : HCrystalBallForecaster) (fh : Option (List Int))
    (X : Option DFrame) (alpha : ℚ) (h : st._is_fitted = false) :
    st.predict fh X false alpha = ([], .error .notFitted) := by
  unfold HCrystalBallForecaster.predict
  simp [h]

/-- C8 witness: the amended claim at a concrete unfitted instance. -/
theorem hcb_C8_witness :
    HCrystalBallForecaster.predict ⟨⟨fun Xf => Xf⟩, false, none, none, none⟩
        none none false DEFAULT_ALPHA = ([], .error .notFitted) :=
  hcb_C8_amended _ _ _ _ rfl

/-- C5: with a time-aware target index and a time-aware exogenous index,
fit-data adaptation left-joins the exogenous table onto the normalized
target index: every target time-position appears among the joined keys,
every joined key is a target time-position (exogenous rows with keys
outside the target index are dropped), and a joined row whose key matches
no exogenous key is entirely null rather than dropped — which also covers
fully disjoint indices. -/
theorem hcb_C5 (y : PSeries) (X : DFrame)
    (hy : y.index.isTimeAware = true) (hX : X.index.isTimeAware = true) :
    _adapt_fit_data y (some X)
      = .ok (⟨_ensure_datetime_index y.index, y.values⟩,
             mergeLeft (zeroColsFrame (_ensure_datetime_index y.index)) X)
    ∧ (∀ k ∈ (_ensure_datetime_index y.index).keys,
        k ∈ (mergeLeft (zeroColsFrame (_ensure_datetime_index y.index)) X).index.keys)
    ∧ (∀ k ∈ (mergeLeft (zeroColsFrame (_ensure_datetime_index y.index)) X).index.keys,
        k ∈ (_ensure_datetime_index y.index).keys)
    ∧ (∀ p ∈ ((mergeLeft (zeroColsFrame (_ensure_datetime_index y.index)) X).index.keys).zip
          ((mergeLeft (zeroColsFrame (_ensure_datetime_index y.index)) X).rows),
        p.1 ∉ X.index.keys → p.2 = List.replicate X.ncols none) := by
  obtain ⟨fo, ts, hdt⟩ := ensure_datetime_of_timeAware y.index hy
  refine ⟨adapt_fit_timeAware y X hy hX, ?_, ?_, ?_⟩
  · intro k hk
    rw [hdt] at hk ⊢
    simp only [PIndex.keys] at hk
    obtain ⟨t, ht, rfl⟩ := List.mem_map.mp hk
    rw [mergeLeft_zero_keys, List.mem_flatMap]
    refine ⟨t, ht, List.mem_replicate.mpr ⟨?_, rfl⟩⟩
    intro h0
    exact joinRows_ne_nil X (.stamp t) (List.length_eq_zero.mp h0)
  · intro k hk
    rw [hdt] at hk ⊢
    rw [mergeLeft_zero_keys, List.mem_flatMap] at hk
    obtain ⟨t, ht, hk2⟩ := hk
    obtain ⟨-, rfl⟩ := List.mem_replicate.mp hk2
    simp only [PIndex.keys]
    exact List.mem_map_of_mem _ ht
  · intro p hp hnot
    rw [hdt, mergeLeft_zero_zip, List.mem_flatMap] at hp
    obtain ⟨t, ht, hp2⟩ := hp
    obtain ⟨r, hr, rfl⟩ := List.mem_map.mp hp2
    simp only at hnot ⊢
    rw [joinRows_not_mem X _ hnot] at hr
    exact List.mem_singleton.mp hr

/-- C5 witness: a concrete disjoint datetime join — the single exogenous
row (key 5) is dropped, both target positions are kept with null cells. -/
theorem hcb_C5_witness :
    _adapt_fit_data ⟨.datetimeIdx (some 1) [0, 1], [some 1, some 2]⟩
        (some ⟨.datetimeIdx (some 1) [5], 1, [[some 9]]⟩)
      = .ok (⟨.datetimeIdx (some 1) [0, 1], [some 1, some 2]⟩,
             mergeLeft (zeroColsFrame (.datetimeIdx (some 1) [0, 1]))
               ⟨.datetimeIdx (some 1) [5], 1, [[some 9]]⟩) :=
  (hcb_C5 ⟨.datetimeIdx (some 1) [0, 1], [some 1, some 2]⟩
    ⟨.datetimeIdx (some 1) [5], 1, [[some 9]]⟩ rfl rfl).1

lemma flatMap_const_singleton {α β : Type} (l : List α) (b : β) :
    (l.flatMap fun _ => [b]) = List.replicate l.length b := by
  induction l with
  | nil => rfl
  | cons a t ih => simp [List.replicate_succ, ih]

/-- C10: with a period-indexed target and a period-indexed exogenous
table, fit-data adaptation takes the target branch and joins the
exogenous table by its raw period keys against the normalized timestamp
keys of the target — which never match — so every joined row is kept but
all exogenous cells are null, even when the two index objects cover the
very same periods. -/
theorem hcb_C10 (y : PSeries) (X : DFrame) (fy fx : Int) (osy osx : List Int)
    (hy : y.index = .periodIdx fy osy) (hX : X.index = .periodIdx fx osx) :
    _adapt_fit_data y (some X)
      = .ok (⟨.datetimeIdx (some fy) (osy.map (periodStart fy)), y.values⟩,
             ⟨.datetimeIdx (some fy) (osy.map (periodStart fy)), X.ncols,
              List.replicate osy.length (List.replicate X.ncols none)⟩) := by
  have hyTA : y.index.isTimeAware = true := by rw [hy]; rfl
  have hXTA : X.index.isTimeAware = true := by rw [hX]; rfl
  have hnm : ∀ t : Int, TimeKey.stamp t ∉ X.index.keys := by
    intro t ht
    rw [hX] at ht
    simp only [PIndex.keys] at ht
    obtain ⟨o, -, hko⟩ := List.mem_map.mp ht
    cases hko
  have hjr : ∀ t : Int, joinRows X (.stamp t) = [List.replicate X.ncols none] :=
    fun t => joinRows_not_mem X _ (hnm t)
  rw [adapt_fit_timeAware y X hyTA hXTA, hy]
  simp only [_ensure_datetime_index]
  have hidx : (mergeLeft (zeroColsFrame
        (.datetimeIdx (some fy) (osy.map (periodStart fy)))) X).index
      = .datetimeIdx (some fy) (osy.map (periodStart fy)) := by
    simp only [mergeLeft, zeroColsFrame, PIndex.expandBy]
    simp only [hjr, List.length_singleton, List.replicate_one, List.flatMap_singleton']
  have hrows : (mergeLeft (zeroColsFrame
        (.datetimeIdx (some fy) (osy.map (periodStart fy)))) X).rows
      = List.replicate osy.length (List.replicate X.ncols none) := by
    rw [mergeLeft_zero_rows]
    simp only [hjr]
    rw [flatMap_const_singleton, List.length_map]
  have hncols : (mergeLeft (zeroColsFrame
        (.datetimeIdx (some fy) (osy.map (periodStart fy)))) X).ncols = X.ncols := by
    simp [mergeLeft, zeroColsFrame]
  have hfull : (mergeLeft (zeroColsFrame
        (.datetimeIdx (some fy) (osy.map (periodStart fy)))) X)
      = ⟨.datetimeIdx (some fy) (osy.map (periodStart fy)), X.ncols,
         List.replicate osy.length (List.replicate X.ncols none)⟩ := by
    cases hmk : mergeLeft (zeroColsFrame
        (.datetimeIdx (some fy) (osy.map (periodStart fy)))) X with
    | mk i n r =>
      rw [hmk] at hidx hrows hncols
      simp only at hidx hrows hncols
      rw [hidx, hrows, hncols]
  rw [hfull]

/-- C10 witness: the all-null join at a concrete pair of period indices
covering the same periods. -/
theorem hcb_C10_witness :
    _adapt_fit_data ⟨.periodIdx 1 [0, 1], [some 1, some 2]⟩
        (some ⟨.periodIdx 1 [0, 1], 1, [[some 9], [some 8]]⟩)
      = .ok (⟨.datetimeIdx (some 1) [0, 1], [some 1, some 2]⟩,
             ⟨.datetimeIdx (some 1) [0, 1], 1, [[none], [none]]⟩) := by
  have h := hcb_C10 ⟨.periodIdx 1 [0, 1], [some 1, some 2]⟩
    ⟨.periodIdx 1 [0, 1], 1, [[some 9], [some 8]]⟩ 1 1 [0, 1] [0, 1] rfl rfl
  exact h

/-- Shape of predict's call trace: either no wrapped-model call was made,
or the single wrapped-model call is followed only by the attribute
failure of index-type reconstruction or by a successful result. -/
lemma predict_trace_shape (st : HCrystalBallForecaster) (fh : Option (List Int))
    (X : Option DFrame) (b : Bool) (a : ℚ) :
    (st.predict fh X b a).1 = [] ∨
      ((st.predict fh X b a).2 = .error .attributeError ∨
        ∃ p, (st.predict fh X b a).2 = .ok p) := by
  unfold HCrystalBallForecaster.predict
  split
  · left; rfl
  · split
    · left; rfl
    · split
      · left; rfl
      · split
        · left; rfl
        · split
          · left; rfl
          · split
            · left; rfl
            · split
              · left; rfl
              · split
                · right; left; rfl
                · right; right; exact ⟨_, rfl⟩

/-- C9: whenever fit returns an adapter error the wrapped model's fit was
not invoked (the call trace is empty), and whenever predict returns one
of the four taxonomy errors (ambiguous-alignment, unsupported-horizon,
not-fitted, unimplemented-feature) the wrapped model's predict was not
invoked — the call fails before reaching the wrapped model and no partial
result is returned. -/
theorem hcb_C9 :
    (∀ (st : HCrystalBallForecaster) (y : PSeries) (X : Option DFrame)
        (fh : Option (List Int)) (e : AdapterError),
      (st.fit y X fh).2 = .error e → (st.fit y X fh).1 = [])
    ∧ (∀ (st : HCrystalBallForecaster) (fh : Option (List Int)) (X : Option DFrame)
        (b : Bool) (a : ℚ) (e : AdapterError),
      (st.predict fh X b a).2 = .error e →
      (e = .ambiguousAlignment ∨ e = .unsupportedHorizon ∨ e = .notFitted ∨
        e = .unimplementedFeature) →
      (st.predict fh X b a).1 = []) := by
  constructor
  · intro st y X fh e h
    cases hadapt : _adapt_fit_data y X with
    | error e2 => simp [HCrystalBallForecaster.fit, hadapt]
    | ok p =>
      obtain ⟨y2, X2⟩ := p
      simp [HCrystalBallForecaster.fit, hadapt] at h
  · intro st fh X b a e h hfour
    rcases predict_trace_shape st fh X b a with h1 | h2 | h3
    · exact h1
    · rw [h] at h2
      have he : e = .attributeError := by
        injection h2
      subst he
      rcases hfour with hf | hf | hf | hf <;> cases hf
    · obtain ⟨p, hp⟩ := h3
      rw [h] at hp
      cases hp

/-- C9 witness: a fit whose adaptation fails (no time-aware index on
either side) makes no wrapped-model call. -/
theorem hcb_C9_witness :
    (HCrystalBallForecaster.fit ⟨⟨fun Xf => Xf⟩, false, none, none, none⟩
        ⟨.rangeIdx 1, [some 1]⟩ none none).1 = [] :=
  hcb_C9.1 ⟨⟨fun Xf => Xf⟩, false, none, none, none⟩ ⟨.rangeIdx 1, [some 1]⟩
    none none .ambiguousAlignment rfl

/-- The fit computation with a time-aware target and no exogenous table:
adaptation always succeeds with a column-free exogenous frame over the
normalized target index. -/
lemma adapt_fit_no_X (y : PSeries) (hy : y.index.isTimeAware = true) :
    _adapt_fit_data y none
      = .ok (⟨_ensure_datetime_index y.index, y.values⟩,
             zeroColsFrame (_ensure_datetime_index y.index)) := by
  obtain ⟨idx, vals⟩ := y
  cases idx with
  | periodIdx f os => rfl
  | datetimeIdx fo ts => rfl
  | rangeIdx n => exact absurd hy (by simp [PIndex.isTimeAware])

/-- C1: for a target series with a time-aware index (carrying cutoff and
flavor metadata) and no exogenous table, when the wrapped model preserves
the index of its feature frame, a successful fit followed by predict over
a horizon accepted by horizon resolution returns a value sequence whose
index is exactly the resolved horizon keys re-expressed in the original
target index flavor. -/
theorem hcb_C1 (st : HCrystalBallForecaster) (y : PSeries) (steps idx : List Int)
    (c : Cutoff) (fl : IndexFlavor) (alpha : ℚ) (fh0 : Option (List Int))
    (hy : y.index.isTimeAware = true)
    (hc : y.index.cutoff? = some c)
    (hfl : y.index.flavor? = some fl)
    (hm : ∀ Xf, (st.model.predictFn Xf).index = Xf.index)
    (hidx : _extract_dt_index steps c = .ok idx) :
    ∃ st2 p,
      (st.fit y none fh0).2 = .ok st2
      ∧ (st2.predict (some steps) none false alpha).2 = .ok p
      ∧ p.index = reexpressIndex fl c.freq idx := by
  have hfit : (st.fit y none fh0).2
      = .ok ({ st with _y := some y, _X := none, _fh := setFhOpt fh0 st._fh, _is_fitted := true }) := by
    unfold HCrystalBallForecaster.fit
    rw [adapt_fit_no_X y hy]
  refine ⟨{ st with _y := some y, _X := none, _fh := setFhOpt fh0 st._fh, _is_fitted := true },
    _convert_predictions
      (st.model.predictFn (zeroColsFrame (.datetimeIdx (some c.freq) idx))) c.freq fl,
    hfit, ?_, ?_⟩
  · simp [HCrystalBallForecaster.predict, setFhOpt, hc, hfl, hidx, _adapt_predict_data]
  · have hXidx : (st.model.predictFn
        (zeroColsFrame (.datetimeIdx (some c.freq) idx))).index
      = (zeroColsFrame (.datetimeIdx (some c.freq) idx)).index := hm _
    simp only [_convert_predictions]
    rw [hXidx]
    rfl

/-- C1 witness: a concrete period-indexed fit/predict round trip whose
returned index is the absolute horizon re-expressed as periods. -/
theorem hcb_C1_witness :
    ∃ st2 p,
      (HCrystalBallForecaster.fit
          ⟨⟨fun Xf => ⟨Xf.index, 1, Xf.rows.map (fun _ => [some 7])⟩⟩,
            false, none, none, none⟩
          ⟨.periodIdx 1 [0, 1, 2], [some 1, some 2, some 3]⟩ none none).2 = .ok st2
      ∧ (st2.predict (some [1, 2]) none false DEFAULT_ALPHA).2 = .ok p
      ∧ p.index = reexpressIndex .period (Cutoff.period 1 2).freq [3, 4] :=
  hcb_C1 ⟨⟨fun Xf => ⟨Xf.index, 1, Xf.rows.map (fun _ => [some 7])⟩⟩,
      false, none, none, none⟩
    ⟨.periodIdx 1 [0, 1, 2], [some 1, some 2, some 3]⟩ [1, 2] [3, 4]
    (Cutoff.period 1 2) .period DEFAULT_ALPHA none rfl rfl rfl (fun Xf => rfl) rfl

end HCB
